import Mathlib

/-!
Formal model of `ticktock.py` (tsroten/ticktock): LRU cache management and
automatic data timeout layered over a `shelve.Shelf`-style persistent mapping.

The embedding follows the source classes:

* `LRUShelf` models `_LRUMixin` composed directly over a plain store
  (class `LRUShelf = _LRUMixin + Shelf`): a `store` association list plus the
  in-memory recency `queue` (`self._queue`, a deque) and `maxsize`.
* `TimeoutShelf` models `_TimeoutMixin` composed directly over a plain store
  (class `TimeoutShelf = _TimeoutMixin + Shelf`): a `store`, the in-memory
  expiry `index` (`self._index`, mapping key to an optional absolute expiry
  instant; Python `None` = never expires) and the default `timeout`.
* `LRUTimeoutShelf` models the full composition
  (`LRUTimeoutShelf = _LRUMixin + _TimeoutMixin + Shelf`).  Python dynamic
  dispatch is significant here: `del self[key]` inside `_is_expired` and
  inside `_remove_add_key` resolves to the OUTERMOST `__delitem__`, so in the
  composed class a TTL purge also removes the key from the recency queue.
  The model encodes the fully-resolved call chains of that class.

Conventions:

* the store is an association list in insertion order (Python dict semantics:
  updating an existing key keeps its position, a new key is appended);
* time is a natural number `now` passed to each operation (`time()`);
* Python exceptions are modelled by `Err`: `KeyError` on a missing or expired
  key is `notFound`, the `KeyError`/`TypeError` guards on the protected index
  key are `protectedKey`, the `TypeError` raised by `__init__` validation is
  `invalidConfig`, and `deque.remove` on a missing element is `valueError`;
* operations return their result together with the post-state; on an error the
  post-state is whatever partial mutation happened before the raise;
* values are opaque; we use `Nat`.  The serialized copy of the index stored
  under the sentinel key holds a dummy value `0` (the in-memory `_index` is
  authoritative between syncs).
-/

abbrev Key := String

abbrev Val := Nat

/-- Exceptions of the Python source, by role: `notFound` is `KeyError` for a
missing/expired key, `protectedKey` the reserved-sentinel guards, `invalidConfig`
the `TypeError` from constructor validation, `valueError` a `deque.remove` miss. -/
inductive Err where
  | notFound
  | protectedKey
  | invalidConfig
  | valueError
deriving DecidableEq, Repr

/-- Models `_TimeoutMixin._INDEX`, the reserved sentinel key that stores the
expiry index inside the container. -/
def INDEX : Key := "f1dd04ff3d4d9adfabd43a3f9fda9b4b78302b21"

/-- Lookup in an association list (Python `d[k]` returning `None`-like absence
as `Option`). -/
def dictGet {α : Type} (k : Key) : List (Key × α) → Option α
  | [] => none
  | p :: d => if p.1 = k then some p.2 else dictGet k d

/-- Models Python dict assignment `d[k] = v`: replaces the value of an existing
key in place, otherwise appends the new pair at the end. -/
def dictSet {α : Type} (k : Key) (v : α) : List (Key × α) → List (Key × α)
  | [] => [(k, v)]
  | p :: d => if p.1 = k then (k, v) :: d else p :: dictSet k v d

/-- Models Python `del d[k]` on a duplicate-free association list: removes the
entry for `k` (removes every entry for `k`; the key lists we build are
duplicate-free, so this coincides with deleting the single entry). -/
def dictDel {α : Type} (k : Key) : List (Key × α) → List (Key × α)
  | [] => []
  | p :: d => if p.1 = k then dictDel k d else p :: dictDel k d

/-- Keys of an association list, in insertion order. -/
def dictKeys {α : Type} (d : List (Key × α)) : List Key :=
  d.map Prod.fst

namespace LRUShelf

/-- State of `LRUShelf` (`_LRUMixin` over a plain `Shelf`): the wrapped store,
the in-memory recency queue (`self._queue`, least-recent at the head) and
`self.maxsize`. -/
structure State where
  store : List (Key × Val)
  queue : List Key
  maxsize : Nat
deriving DecidableEq, Repr

/-- Models `_LRUMixin.__delitem__` for `LRUShelf`: `super().__delitem__(key)`
(the store delete, `KeyError` if absent) and then `self._queue.remove(key)`
(`ValueError` if the key is not queued). -/
def delitem (s : State) (k : Key) : Option Err × State :=
  if (dictGet k s.store).isSome then
    let s1 : State := { s with store := dictDel k s.store }
    if k ∈ s1.queue then
      (none, { s1 with queue := s1.queue.erase k })
    else (some .valueError, s1)
  else (some .notFound, s)

/-- Models the `while len(self._queue) > self.maxsize: del self[self._queue[0]]`
loop of `_remove_add_key`, with explicit fuel (each successful delete pops the
queue head, so `queue.length` fuel always suffices). -/
def evictLoop : Nat → State → Option Err × State
  | 0, s => (none, s)
  | fuel + 1, s =>
    if s.maxsize < s.queue.length then
      match s.queue with
      | [] => (none, s)
      | hd :: _ =>
        match delitem s hd with
        | (none, s') => evictLoop fuel s'
        | (some e, s') => (some e, s')
    else (none, s)

/-- Models `_LRUMixin._remove_add_key` after initialization: move `key` to the
queue tail (`remove` if present, then `append`), then, unless `maxsize == 0`,
evict least-recently-used keys while the queue is longer than `maxsize`. -/
def remove_add_key (s : State) (k : Key) : Option Err × State :=
  let s1 : State := { s with queue := s.queue.erase k ++ [k] }
  if s1.maxsize = 0 then (none, s1)
  else evictLoop s1.queue.length s1

/-- Models `_LRUMixin.__getitem__` for `LRUShelf`: read from the store
(`KeyError` if absent, with no queue mutation), then `_remove_add_key`. -/
def getitem (s : State) (k : Key) : Except Err Val × State :=
  match dictGet k s.store with
  | some v =>
    match remove_add_key s k with
    | (none, s') => (.ok v, s')
    | (some e, s') => (.error e, s')
  | none => (.error .notFound, s)

/-- Models `_LRUMixin.__setitem__` for `LRUShelf`: write to the store, then
`_remove_add_key`. -/
def setitem (s : State) (k : Key) (v : Val) : Option Err × State :=
  let s1 : State := { s with store := dictSet k v s.store }
  remove_add_key s1 k

/-- Public operations of an `LRUShelf`.  Iteration over a plain `Shelf` is a
read of the key list and mutates nothing. -/
inductive Op where
  | set (k : Key) (v : Val)
  | get (k : Key)
  | del (k : Key)
  | iterate
deriving DecidableEq, Repr

/-- State transition of one public operation (the post-state, whether or not
the operation raised). -/
def step (s : State) : Op → State
  | .set k v => (setitem s k v).2
  | .get k => (getitem s k).2
  | .del k => (delitem s k).2
  | .iterate => s

/-- Run a sequence of public operations. -/
def run (ops : List Op) (s : State) : State :=
  ops.foldl step s

/-- State of a fresh `LRUShelf` opened over an empty store: empty queue and
store (`_LRUMixin.__init__` seeds the queue from the existing keys; there are
none). -/
def init (m : Nat) : State :=
  { store := [], queue := [], maxsize := m }

/-- Invariant of reachable `LRUShelf` states: the queue is duplicate-free, the
store keys are duplicate-free, the queue holds exactly the store's keys, and
the queue respects the bound (unless `maxsize = 0`, meaning unlimited). -/
def Inv (s : State) : Prop :=
  s.queue.Nodup ∧ (dictKeys s.store).Nodup ∧
  (∀ a ∈ s.queue, a ∈ dictKeys s.store) ∧
  (∀ a ∈ dictKeys s.store, a ∈ s.queue) ∧
  (s.maxsize = 0 ∨ s.queue.length ≤ s.maxsize)

instance (s : State) : Decidable (Inv s) := by
  unfold Inv
  infer_instance

end LRUShelf

namespace TimeoutShelf

/-- State of `TimeoutShelf` (`_TimeoutMixin` over a plain `Shelf`): the wrapped
store (which holds the sentinel record), the in-memory expiry index
(`self._index`; `none` instant = never expires) and the default `self.timeout`. -/
structure State where
  store : List (Key × Val)
  index : List (Key × Option Nat)
  timeout : Nat
deriving DecidableEq, Repr

/-- Models `_TimeoutMixin.__delitem__` for `TimeoutShelf`: sentinel guard
(`KeyError "cannot delete protected key"`), then the store delete (`KeyError`
if absent), then `del self._index[key]` (`KeyError` if the index lacks the key,
leaving the store already mutated). -/
def delitem (s : State) (k : Key) : Option Err × State :=
  if k = INDEX then (some .protectedKey, s)
  else if (dictGet k s.store).isSome then
    let s1 : State := { s with store := dictDel k s.store }
    if (dictGet k s1.index).isSome then
      (none, { s1 with index := dictDel k s1.index })
    else (some .notFound, s1)
  else (some .notFound, s)

/-- Models `_TimeoutMixin._is_expired` for `TimeoutShelf`:
`timeout = self._index[key]` (`KeyError` if unindexed); not expired if the
entry is `None` or the instant is `>= time()`; otherwise `del self[key]` (the
full delete) and report expired. -/
def is_expired (s : State) (k : Key) (now : Nat) : Except Err Bool × State :=
  match dictGet k s.index with
  | none => (.error .notFound, s)
  | some none => (.ok false, s)
  | some (some t) =>
    if now ≤ t then (.ok false, s)
    else
      match delitem s k with
      | (none, s') => (.ok true, s')
      | (some e, s') => (.error e, s')

/-- Models `_TimeoutMixin.__getitem__` for `TimeoutShelf`: sentinel guard, then
`if not self._is_expired(key): return super().__getitem__(key)` with every
inner `KeyError` collapsed to `KeyError(key)`. -/
def getitem (s : State) (k : Key) (now : Nat) : Except Err Val × State :=
  if k = INDEX then (.error .protectedKey, s)
  else
    match is_expired s k now with
    | (.ok false, s') =>
      match dictGet k s'.store with
      | some v => (.ok v, s')
      | none => (.error .notFound, s')
    | (.ok true, s') => (.error .notFound, s')
    | (.error _, s') => (.error .notFound, s')

/-- Models `_TimeoutMixin.__setitem__` for `TimeoutShelf`: sentinel guard
(`TypeError "reserved key name"`), store write, then
`self._index[key] = int(time() + self.timeout) if self.timeout else None`. -/
def setitem (s : State) (k : Key) (v : Val) (now : Nat) : Option Err × State :=
  if k = INDEX then (some .protectedKey, s)
  else
    (none, { s with
      store := dictSet k v s.store,
      index := dictSet k (if s.timeout = 0 then none else some (now + s.timeout)) s.index })

/-- Models `_TimeoutMixin.settimeout` for `TimeoutShelf`: `self[key] = value`
(the full `__setitem__`, whose exceptions propagate), then
`self._index[key] = int(time() + timeout) if timeout else None`. -/
def settimeout (s : State) (k : Key) (v : Val) (ttl : Nat) (now : Nat) :
    Option Err × State :=
  match setitem s k v now with
  | (none, s') =>
    (none, { s' with
      index := dictSet k (if ttl = 0 then none else some (now + ttl)) s'.index })
  | (some e, s') => (some e, s')

/-- Models `_TimeoutMixin.__contains__`: `False` for the sentinel, otherwise
raw store containment.  Note the source performs NO expiry check here. -/
def contains (s : State) (k : Key) : Bool :=
  if k = INDEX then false else (dictGet k s.store).isSome

/-- Models `_TimeoutMixin.__len__`: the raw store element count minus one
(hiding the sentinel record). -/
def length (s : State) : Int :=
  (s.store.length : Int) - 1

/-- Models `_TimeoutMixin.set` (get-or-compute): `if key in self: return
self[key]`, otherwise compute `func()`, store it via `self[key] = value` with
the default timeout, and return it. -/
def set (s : State) (k : Key) (f : Unit → Val) (now : Nat) : Except Err Val × State :=
  if contains s k then getitem s k now
  else
    let v := f ()
    match setitem s k v now with
    | (none, s') => (.ok v, s')
    | (some e, s') => (.error e, s')

/-- Models the body of `_TimeoutMixin.__iter__` consumed to a list: walk a
snapshot of the store's key sequence, skip the sentinel, lazily purge expired
keys (which are not yielded), and propagate any `KeyError` from `_is_expired`. -/
def iterGo (now : Nat) : State → List Key → Except Err (List Key) × State
  | s, [] => (.ok [], s)
  | s, k :: ks =>
    if k = INDEX then iterGo now s ks
    else
      match is_expired s k now with
      | (.ok false, s') =>
        match iterGo now s' ks with
        | (.ok out, s'') => (.ok (k :: out), s'')
        | (.error e, s'') => (.error e, s'')
      | (.ok true, s') => iterGo now s' ks
      | (.error e, s') => (.error e, s')

/-- Models full consumption of `_TimeoutMixin.__iter__` for `TimeoutShelf`. -/
def iterKeys (s : State) (now : Nat) : Except Err (List Key) × State :=
  iterGo now s (dictKeys s.store)

/-- Models the `self.timeout` validation of `_TimeoutMixin.__init__`: the value
is `kwargs.get('timeout', DEFAULT_TIMEOUT)` and `TypeError("timeout must be a
non-negative integer")` is raised exactly when it is `None` (modelled as
`Option.none`).  Despite the message, the source performs no sign check, so any
negative integer is accepted. -/
def init_timeout_check (timeoutArg : Option Int) : Except Err Int :=
  match timeoutArg with
  | none => .error .invalidConfig
  | some t => .ok t

/-- Public operations of a `TimeoutShelf` quantified over by the sentinel-hiding
claim: set, get and delete, each carrying the clock value at call time. -/
inductive Op where
  | set (k : Key) (v : Val) (now : Nat)
  | get (k : Key) (now : Nat)
  | del (k : Key)
deriving DecidableEq, Repr

/-- Key argument of a public operation. -/
def Op.key : Op → Key
  | .set k _ _ => k
  | .get k _ => k
  | .del k => k

/-- State transition of one public operation. -/
def step (s : State) : Op → State
  | .set k v now => (setitem s k v now).2
  | .get k now => (getitem s k now).2
  | .del k => (delitem s k).2

/-- Run a sequence of public operations. -/
def run (ops : List Op) (s : State) : State :=
  ops.foldl step s

/-- State of a fresh `TimeoutShelf` opened over an empty store:
`_TimeoutMixin.__init__` finds no sentinel record, creates an empty index and
writes it under the sentinel key. -/
def init (t : Nat) : State :=
  { store := [(INDEX, 0)], index := [], timeout := t }

/-- Sentinel invariant of reachable `TimeoutShelf` states: duplicate-free store
keys and the sentinel record present. -/
def SentinelInv (s : State) : Prop :=
  (dictKeys s.store).Nodup ∧ INDEX ∈ dictKeys s.store

instance (s : State) : Decidable (SentinelInv s) := by
  unfold SentinelInv
  infer_instance

end TimeoutShelf

namespace LRUTimeoutShelf

/-- State of `LRUTimeoutShelf` (`_LRUMixin` over `_TimeoutMixin` over a plain
`Shelf`): store, expiry index, recency queue, `maxsize` and default `timeout`. -/
structure State where
  store : List (Key × Val)
  index : List (Key × Option Nat)
  queue : List Key
  maxsize : Nat
  timeout : Nat
deriving DecidableEq, Repr

/-- Models `del self[key]` on an `LRUTimeoutShelf` (`_LRUMixin.__delitem__`
resolving its `super()` to `_TimeoutMixin.__delitem__`): sentinel guard, store
delete, index delete, then `self._queue.remove(key)`. -/
def delitem (s : State) (k : Key) : Option Err × State :=
  if k = INDEX then (some .protectedKey, s)
  else if (dictGet k s.store).isSome then
    let s1 : State := { s with store := dictDel k s.store }
    if (dictGet k s1.index).isSome then
      let s2 : State := { s1 with index := dictDel k s1.index }
      if k ∈ s2.queue then
        (none, { s2 with queue := s2.queue.erase k })
      else (some .valueError, s2)
    else (some .notFound, s1)
  else (some .notFound, s)

/-- Models `_TimeoutMixin._is_expired` on an `LRUTimeoutShelf`: `del self[key]`
dispatches to the composed delete, so a TTL purge also removes the key from the
recency queue. -/
def is_expired (s : State) (k : Key) (now : Nat) : Except Err Bool × State :=
  match dictGet k s.index with
  | none => (.error .notFound, s)
  | some none => (.ok false, s)
  | some (some t) =>
    if now ≤ t then (.ok false, s)
    else
      match delitem s k with
      | (none, s') => (.ok true, s')
      | (some e, s') => (.error e, s')

/-- Models the eviction loop of `_remove_add_key` on an `LRUTimeoutShelf`:
`del self[self._queue[0]]` uses the composed delete. -/
def evictLoop : Nat → State → Option Err × State
  | 0, s => (none, s)
  | fuel + 1, s =>
    if s.maxsize < s.queue.length then
      match s.queue with
      | [] => (none, s)
      | hd :: _ =>
        match delitem s hd with
        | (none, s') => evictLoop fuel s'
        | (some e, s') => (some e, s')
    else (none, s)

/-- Models `_LRUMixin._remove_add_key` on an `LRUTimeoutShelf`. -/
def remove_add_key (s : State) (k : Key) : Option Err × State :=
  let s1 : State := { s with queue := s.queue.erase k ++ [k] }
  if s1.maxsize = 0 then (none, s1)
  else evictLoop s1.queue.length s1

/-- Models `_TimeoutMixin.__getitem__` on an `LRUTimeoutShelf` (the `super()`
read of `_LRUMixin.__getitem__`). -/
def timeout_getitem (s : State) (k : Key) (now : Nat) : Except Err Val × State :=
  if k = INDEX then (.error .protectedKey, s)
  else
    match is_expired s k now with
    | (.ok false, s') =>
      match dictGet k s'.store with
      | some v => (.ok v, s')
      | none => (.error .notFound, s')
    | (.ok true, s') => (.error .notFound, s')
    | (.error _, s') => (.error .notFound, s')

/-- Models `_LRUMixin.__getitem__` on an `LRUTimeoutShelf`: the timeout-layer
read, then on success `_remove_add_key`; a miss propagates with no touch. -/
def getitem (s : State) (k : Key) (now : Nat) : Except Err Val × State :=
  match timeout_getitem s k now with
  | (.ok v, s') =>
    match remove_add_key s' k with
    | (none, s'') => (.ok v, s'')
    | (some e, s'') => (.error e, s'')
  | (.error e, s') => (.error e, s')

/-- Models `_TimeoutMixin.__setitem__` on an `LRUTimeoutShelf`: sentinel guard,
store write, index stamp with the default timeout. -/
def timeout_setitem (s : State) (k : Key) (v : Val) (now : Nat) : Option Err × State :=
  if k = INDEX then (some .protectedKey, s)
  else
    (none, { s with
      store := dictSet k v s.store,
      index := dictSet k (if s.timeout = 0 then none else some (now + s.timeout)) s.index })

/-- Models `_LRUMixin.__setitem__` on an `LRUTimeoutShelf`: the timeout-layer
write, then `_remove_add_key`. -/
def setitem (s : State) (k : Key) (v : Val) (now : Nat) : Option Err × State :=
  match timeout_setitem s k v now with
  | (none, s') => remove_add_key s' k
  | (some e, s') => (some e, s')

/-- Models `_TimeoutMixin.settimeout` on an `LRUTimeoutShelf`: `self[key] =
value` (the composed `__setitem__`, whose exceptions propagate before the index
is touched), then the explicit-ttl index stamp. -/
def settimeout (s : State) (k : Key) (v : Val) (ttl : Nat) (now : Nat) :
    Option Err × State :=
  match setitem s k v now with
  | (none, s') =>
    (none, { s' with
      index := dictSet k (if ttl = 0 then none else some (now + ttl)) s'.index })
  | (some e, s') => (some e, s')

/-- Models `_TimeoutMixin.__iter__` on an `LRUTimeoutShelf`, consumed to a
list over a snapshot of the store's keys; a purge uses the composed delete. -/
def iterGo (now : Nat) : State → List Key → Except Err (List Key) × State
  | s, [] => (.ok [], s)
  | s, k :: ks =>
    if k = INDEX then iterGo now s ks
    else
      match is_expired s k now with
      | (.ok false, s') =>
        match iterGo now s' ks with
        | (.ok out, s'') => (.ok (k :: out), s'')
        | (.error e, s'') => (.error e, s'')
      | (.ok true, s') => iterGo now s' ks
      | (.error e, s') => (.error e, s')

/-- Models full consumption of iteration on an `LRUTimeoutShelf`. -/
def iterKeys (s : State) (now : Nat) : Except Err (List Key) × State :=
  iterGo now s (dictKeys s.store)

/-- Public operations of an `LRUTimeoutShelf`: get, set, delete and iterate,
each carrying the clock value at call time. -/
inductive Op where
  | set (k : Key) (v : Val) (now : Nat)
  | get (k : Key) (now : Nat)
  | del (k : Key)
  | iterate (now : Nat)
deriving DecidableEq, Repr

/-- State transition of one public operation (the post-state, whether or not
the operation raised). -/
def step (s : State) : Op → State
  | .set k v now => (setitem s k v now).2
  | .get k now => (getitem s k now).2
  | .del k => (delitem s k).2
  | .iterate now => (iterKeys s now).2

/-- Run a sequence of public operations. -/
def run (ops : List Op) (s : State) : State :=
  ops.foldl step s

/-- State of a fresh `LRUTimeoutShelf` opened over an empty store: the timeout
layer creates the sentinel record over an empty index, and the LRU layer seeds
its queue from the (empty) visible key set. -/
def init (m t : Nat) : State :=
  { store := [(INDEX, 0)], index := [], queue := [], maxsize := m, timeout := t }

/-- Invariant of reachable `LRUTimeoutShelf` states: duplicate-free queue,
store keys and index keys; sentinel present in the store and hidden from queue
and index; the queue holds exactly the non-sentinel store keys; the index is
keyed by exactly the non-sentinel store keys. -/
def Inv (s : State) : Prop :=
  s.queue.Nodup ∧ (dictKeys s.store).Nodup ∧ (dictKeys s.index).Nodup ∧
  INDEX ∈ dictKeys s.store ∧ INDEX ∉ s.queue ∧ INDEX ∉ dictKeys s.index ∧
  (∀ a ∈ s.queue, a ∈ dictKeys s.store) ∧
  (∀ a ∈ dictKeys s.store, a ≠ INDEX → a ∈ s.queue) ∧
  (∀ a ∈ dictKeys s.index, a ∈ dictKeys s.store) ∧
  (∀ a ∈ dictKeys s.store, a ≠ INDEX → a ∈ dictKeys s.index)

instance (s : State) : Decidable (Inv s) := by
  unfold Inv
  infer_instance

end LRUTimeoutShelf

/-- Concrete `TimeoutShelf` state for analysing the containment contract: key
`"k"` is present with value `7` and an expiry instant `5` that has passed once
the clock reads `10`. -/
def cexC2 : TimeoutShelf.State :=
  { store := [(INDEX, 0), ("k", 7)], index := [("k", some 5)], timeout := 300 }

/-- Concrete `TimeoutShelf` state for analysing `set` (get-or-compute) on a
present-but-expired key. -/
def cexC3 : TimeoutShelf.State :=
  { store := [(INDEX, 0), ("k", 7)], index := [("k", some 5)], timeout := 300 }

/-- Concrete `TimeoutShelf` state for analysing the expiry comparison of
`_is_expired` at the boundary instant. -/
def cexC4 : TimeoutShelf.State :=
  { store := [(INDEX, 0), ("k", 7)], index := [("k", some 5)], timeout := 300 }

/-- Concrete `LRUShelf` state with two live keys and `maxsize = 1`, used to
exercise an eviction through `_remove_add_key`. -/
def lruW6 : LRUShelf.State :=
  { store := [("a", 1), ("b", 2)], queue := ["a", "b"], maxsize := 1 }

/-- Concrete `LRUShelf` state with two live keys and ample capacity, used to
exercise a recency-only touch. -/
def lruW7 : LRUShelf.State :=
  { store := [("a", 1), ("b", 2)], queue := ["a", "b"], maxsize := 4 }

/-! ### Association-list lemmas -/

theorem dictKeys_nil {α : Type} : dictKeys ([] : List (Key × α)) = [] := rfl

theorem dictKeys_cons {α : Type} (p : Key × α) (d : List (Key × α)) :
    dictKeys (p :: d) = p.1 :: dictKeys d := rfl

theorem dictGet_isSome_iff {α : Type} (k : Key) (d : List (Key × α)) :
    (dictGet k d).isSome ↔ k ∈ dictKeys d := by
  induction d with
  | nil => simp [dictGet, dictKeys_nil]
  | cons p d ih =>
    by_cases h : p.1 = k
    · simp [dictGet, dictKeys_cons, h]
    · have h' : ¬k = p.1 := fun hk => h hk.symm
      simp [dictGet, dictKeys_cons, h, h', ih]

theorem dictSet_cons_eq {α : Type} (k : Key) (v : α) (p : Key × α) (d : List (Key × α))
    (h : p.1 = k) : dictSet k v (p :: d) = (k, v) :: d := by
  simp [dictSet, h]

theorem dictSet_cons_ne {α : Type} (k : Key) (v : α) (p : Key × α) (d : List (Key × α))
    (h : p.1 ≠ k) : dictSet k v (p :: d) = p :: dictSet k v d := by
  simp [dictSet, h]

theorem dictDel_cons_eq {α : Type} (k : Key) (p : Key × α) (d : List (Key × α))
    (h : p.1 = k) : dictDel k (p :: d) = dictDel k d := by
  simp [dictDel, h]

theorem dictDel_cons_ne {α : Type} (k : Key) (p : Key × α) (d : List (Key × α))
    (h : p.1 ≠ k) : dictDel k (p :: d) = p :: dictDel k d := by
  simp [dictDel, h]

theorem mem_dictKeys_dictSet {α : Type} (a k : Key) (v : α) (d : List (Key × α)) :
    a ∈ dictKeys (dictSet k v d) ↔ a = k ∨ a ∈ dictKeys d := by
  induction d with
  | nil => simp [dictSet, dictKeys]
  | cons p d ih =>
    by_cases h : p.1 = k
    · rw [dictSet_cons_eq k v p d h, dictKeys_cons, dictKeys_cons, List.mem_cons,
        List.mem_cons, h]
      tauto
    · rw [dictSet_cons_ne k v p d h, dictKeys_cons, dictKeys_cons, List.mem_cons,
        List.mem_cons, ih]
      tauto

theorem nodup_dictKeys_dictSet {α : Type} (k : Key) (v : α) (d : List (Key × α))
    (hd : (dictKeys d).Nodup) : (dictKeys (dictSet k v d)).Nodup := by
  induction d with
  | nil => simp [dictSet, dictKeys]
  | cons p d ih =>
    rw [dictKeys_cons, List.nodup_cons] at hd
    by_cases h : p.1 = k
    · rw [dictSet_cons_eq k v p d h, dictKeys_cons, List.nodup_cons]
      exact ⟨h ▸ hd.1, hd.2⟩
    · rw [dictSet_cons_ne k v p d h, dictKeys_cons, List.nodup_cons]
      refine ⟨?_, ih hd.2⟩
      rw [mem_dictKeys_dictSet]
      rintro (h1 | h1)
      · exact h h1
      · exact hd.1 h1

theorem mem_dictKeys_dictDel {α : Type} (a k : Key) (d : List (Key × α)) :
    a ∈ dictKeys (dictDel k d) ↔ a ∈ dictKeys d ∧ a ≠ k := by
  induction d with
  | nil => simp [dictDel, dictKeys]
  | cons p d ih =>
    by_cases h : p.1 = k
    · rw [dictDel_cons_eq k p d h, dictKeys_cons, ih, List.mem_cons, h]
      constructor
      · rintro ⟨h1, h2⟩
        exact ⟨Or.inr h1, h2⟩
      · rintro ⟨rfl | h1, h2⟩
        · exact absurd rfl h2
        · exact ⟨h1, h2⟩
    · rw [dictDel_cons_ne k p d h, dictKeys_cons, dictKeys_cons, List.mem_cons,
        List.mem_cons, ih]
      constructor
      · rintro (rfl | ⟨h1, h2⟩)
        · exact ⟨Or.inl rfl, fun hk => h hk⟩
        · exact ⟨Or.inr h1, h2⟩
      · rintro ⟨rfl | h1, h2⟩
        · exact Or.inl rfl
        · exact Or.inr ⟨h1, h2⟩

theorem nodup_dictKeys_dictDel {α : Type} (k : Key) (d : List (Key × α))
    (hd : (dictKeys d).Nodup) : (dictKeys (dictDel k d)).Nodup := by
  induction d with
  | nil => simp [dictDel, dictKeys]
  | cons p d ih =>
    rw [dictKeys_cons, List.nodup_cons] at hd
    by_cases h : p.1 = k
    · rw [dictDel, if_pos h]
      exact ih hd.2
    · rw [dictDel, if_neg h, dictKeys_cons, List.nodup_cons]
      exact ⟨fun h1 => hd.1 ((mem_dictKeys_dictDel _ _ _).1 h1).1, ih hd.2⟩

theorem dictGet_dictSet_self {α : Type} (k : Key) (v : α) (d : List (Key × α)) :
    dictGet k (dictSet k v d) = some v := by
  induction d with
  | nil => simp [dictSet, dictGet]
  | cons p d ih =>
    by_cases h : p.1 = k
    · simp [dictSet, dictGet, h]
    · simp [dictSet, dictGet, h, ih]

theorem dictKeys_length {α : Type} (d : List (Key × α)) :
    (dictKeys d).length = d.length :=
  List.length_map _ _

/-! ### Lemmas about the LRU-only model -/

theorem lru_delitem_not_mem (s : LRUShelf.State) (k : Key)
    (h : k ∉ dictKeys s.store) :
    LRUShelf.delitem s k = (some .notFound, s) := by
  have h1 : ¬(dictGet k s.store).isSome := fun hs => h ((dictGet_isSome_iff k s.store).1 hs)
  simp [LRUShelf.delitem, h1]

theorem lru_delitem_mem (s : LRUShelf.State) (k : Key)
    (hmem : k ∈ dictKeys s.store) (hq : k ∈ s.queue) :
    LRUShelf.delitem s k =
      (none, { s with store := dictDel k s.store, queue := s.queue.erase k }) := by
  have h1 : (dictGet k s.store).isSome := (dictGet_isSome_iff k s.store).2 hmem
  simp [LRUShelf.delitem, h1, hq]

theorem lru_evictLoop_of_le (fuel : Nat) (s : LRUShelf.State)
    (h : s.queue.length ≤ s.maxsize) :
    LRUShelf.evictLoop fuel s = (none, s) := by
  cases fuel with
  | zero => rfl
  | succ fuel => simp [LRUShelf.evictLoop, Nat.not_lt.2 h]

theorem lru_evictLoop_spec :
    ∀ (fuel : Nat) (s : LRUShelf.State),
      s.queue.Nodup → (dictKeys s.store).Nodup →
      (∀ a ∈ s.queue, a ∈ dictKeys s.store) →
      s.queue.length - s.maxsize ≤ fuel →
      ∃ s', LRUShelf.evictLoop fuel s = (none, s') ∧
        s'.queue = s.queue.drop (s.queue.length - s.maxsize) ∧
        s'.maxsize = s.maxsize ∧
        s'.queue.Nodup ∧ (dictKeys s'.store).Nodup ∧
        (∀ j, j ∈ dictKeys s'.store ↔
          (j ∈ dictKeys s.store ∧ j ∉ s.queue.take (s.queue.length - s.maxsize))) := by
  intro fuel
  induction fuel with
  | zero =>
    intro s hqn hsn hqs hfuel
    have hn : s.queue.length - s.maxsize = 0 := Nat.le_zero.mp hfuel
    exact ⟨s, rfl, by simp [hn], rfl, hqn, hsn, by simp [hn]⟩
  | succ fuel ih =>
    intro s hqn hsn hqs hfuel
    by_cases hlt : s.maxsize < s.queue.length
    · cases hq : s.queue with
      | nil =>
        rw [hq] at hlt
        exact absurd hlt (by simp)
      | cons hd tl =>
        have hdq : hd ∈ s.queue := by rw [hq]; exact List.mem_cons_self hd tl
        have hdstore : hd ∈ dictKeys s.store := hqs hd hdq
        have herase : s.queue.erase hd = tl := by rw [hq]; exact List.erase_cons_head hd tl
        have hdel := lru_delitem_mem s hd hdstore hdq
        set s1 : LRUShelf.State :=
          { s with store := dictDel hd s.store, queue := s.queue.erase hd } with hs1
        have hq1 : s1.queue = tl := herase
        have hmax1 : s1.maxsize = s.maxsize := rfl
        have htl_nodup : tl.Nodup := by
          have := hq ▸ hqn
          exact (List.nodup_cons.1 this).2
        have hhd_tl : hd ∉ tl := by
          have := hq ▸ hqn
          exact (List.nodup_cons.1 this).1
        have hsn1 : (dictKeys s1.store).Nodup := nodup_dictKeys_dictDel hd s.store hsn
        have hqs1 : ∀ a ∈ s1.queue, a ∈ dictKeys s1.store := by
          intro a ha
          rw [hq1] at ha
          have haq : a ∈ s.queue := by rw [hq]; exact List.mem_cons_of_mem hd ha
          have hane : a ≠ hd := fun hek => hhd_tl (hek ▸ ha)
          exact (mem_dictKeys_dictDel a hd s.store).2 ⟨hqs a haq, hane⟩
        have hfuel1 : s1.queue.length - s1.maxsize ≤ fuel := by
          rw [hq1, hmax1]
          rw [hq] at hfuel
          simp only [List.length_cons] at hfuel
          omega
        obtain ⟨s', hrun, hq', hm', hqn', hsn', hmem'⟩ :=
          ih s1 (hq1 ▸ htl_nodup) hsn1 hqs1 hfuel1
        have hloop : LRUShelf.evictLoop (fuel + 1) s = LRUShelf.evictLoop fuel s1 := by
          rw [LRUShelf.evictLoop]
          rw [if_pos hlt]
          split
          · rename_i heq
            rw [heq] at hq
            exact absurd hq (by simp)
          · rename_i hd' tl' heq
            have hinj : hd :: tl = hd' :: tl' := hq.symm.trans heq
            have hhd' : hd' = hd := by
              injection hinj with h1 h2
              exact h1.symm
            rw [hhd', hdel]
        have hlen : s.queue.length = tl.length + 1 := by rw [hq]; simp
        have hdropn : (hd :: tl).length - s.maxsize = (tl.length - s.maxsize) + 1 := by
          simp only [List.length_cons]
          omega
        refine ⟨s', hloop ▸ hrun, ?_, hm'.trans hmax1, hqn', hsn', ?_⟩
        · rw [hq', hq1, hmax1, hdropn, List.drop_succ_cons]
        · intro j
          rw [hmem' j, hdropn, List.take_succ_cons, List.mem_cons]
          rw [show dictKeys s1.store = dictKeys (dictDel hd s.store) from rfl,
            mem_dictKeys_dictDel, hq1, hmax1]
          constructor
          · rintro ⟨⟨hj1, hj2⟩, hj3⟩
            exact ⟨hj1, fun hc => hc.elim (fun hc1 => hj2 hc1) (fun hc1 => hj3 hc1)⟩
          · rintro ⟨hj1, hj2⟩
            exact ⟨⟨hj1, fun hc => hj2 (Or.inl hc)⟩, fun hc => hj2 (Or.inr hc)⟩
    · have hn : s.queue.length - s.maxsize = 0 := by omega
      refine ⟨s, ?_, by simp [hn], rfl, hqn, hsn, by simp [hn]⟩
      simp [LRUShelf.evictLoop, hlt]

theorem lru_remove_add_key_zero (s : LRUShelf.State) (k : Key) (hm : s.maxsize = 0) :
    LRUShelf.remove_add_key s k = (none, { s with queue := s.queue.erase k ++ [k] }) := by
  simp [LRUShelf.remove_add_key, hm]

theorem lru_remove_add_key_spec (s : LRUShelf.State) (k : Key)
    (hqn : s.queue.Nodup) (hsn : (dictKeys s.store).Nodup)
    (hqs : ∀ a ∈ s.queue, a ∈ dictKeys s.store)
    (hk : k ∈ dictKeys s.store) (hm : s.maxsize ≠ 0) :
    ∃ s', LRUShelf.remove_add_key s k = (none, s') ∧
      s'.maxsize = s.maxsize ∧
      s'.queue =
        (s.queue.erase k ++ [k]).drop ((s.queue.erase k ++ [k]).length - s.maxsize) ∧
      s'.queue.Nodup ∧ (dictKeys s'.store).Nodup ∧
      (∀ j, j ∈ dictKeys s'.store ↔
        (j ∈ dictKeys s.store ∧
          j ∉ (s.queue.erase k ++ [k]).take ((s.queue.erase k ++ [k]).length - s.maxsize))) ∧
      s'.queue.length ≤ s.maxsize := by
  set s1 : LRUShelf.State := { s with queue := s.queue.erase k ++ [k] } with hs1
  have hq1n : s1.queue.Nodup := by
    rw [hs1]
    refine List.Nodup.append (hqn.erase k) (List.nodup_singleton k) ?_
    intro a ha hb
    rw [List.mem_singleton] at hb
    subst hb
    exact (hqn.mem_erase_iff.1 ha).1 rfl
  have hqs1 : ∀ a ∈ s1.queue, a ∈ dictKeys s1.store := by
    intro a ha
    rw [hs1] at ha
    rw [List.mem_append, List.mem_singleton] at ha
    rcases ha with ha | rfl
    · exact hqs a (List.erase_subset k s.queue ha)
    · exact hk
  obtain ⟨s', hrun, hq', hm', hqn', hsn', hmem'⟩ :=
    lru_evictLoop_spec s1.queue.length s1 hq1n hsn hqs1 (Nat.sub_le _ _)
  have hrak : LRUShelf.remove_add_key s k = LRUShelf.evictLoop s1.queue.length s1 := by
    rw [LRUShelf.remove_add_key]
    simp only [if_neg hm]
  have hdroplen : s'.queue.length ≤ s.maxsize := by
    have hmax1 : s1.maxsize = s.maxsize := rfl
    rw [hq']
    rw [List.length_drop]
    omega
  exact ⟨s', hrak ▸ hrun, hm', hq', hqn', hsn', hmem', hdroplen⟩

theorem lru_remove_add_key_inv (s : LRUShelf.State) (k : Key)
    (hqn : s.queue.Nodup) (hsn : (dictKeys s.store).Nodup)
    (hqs : ∀ a ∈ s.queue, a ∈ dictKeys s.store)
    (hsq : ∀ a ∈ dictKeys s.store, a = k ∨ a ∈ s.queue)
    (hk : k ∈ dictKeys s.store) :
    LRUShelf.Inv (LRUShelf.remove_add_key s k).2 := by
  have hmemq1 : ∀ a, a ∈ s.queue.erase k ++ [k] ↔ a ∈ dictKeys s.store := by
    intro a
    rw [List.mem_append, List.mem_singleton]
    constructor
    · rintro (ha | rfl)
      · exact hqs a (List.erase_subset k s.queue ha)
      · exact hk
    · intro ha
      rcases hsq a ha with rfl | haq
      · exact Or.inr rfl
      · by_cases hak : a = k
        · exact Or.inr hak
        · exact Or.inl ((List.mem_erase_of_ne hak).2 haq)
  have hq1n : (s.queue.erase k ++ [k]).Nodup := by
    refine List.Nodup.append (hqn.erase k) (List.nodup_singleton k) ?_
    intro a ha hb
    rw [List.mem_singleton] at hb
    subst hb
    exact (hqn.mem_erase_iff.1 ha).1 rfl
  by_cases hm : s.maxsize = 0
  · rw [lru_remove_add_key_zero s k hm]
    exact ⟨hq1n, hsn, fun a ha => (hmemq1 a).1 ha, fun a ha => (hmemq1 a).2 ha, Or.inl hm⟩
  · obtain ⟨s', hrun, hm', hq', hqn', hsn', hmem', hlen⟩ :=
      lru_remove_add_key_spec s k hqn hsn hqs hk hm
    rw [hrun]
    set q1 : List Key := s.queue.erase k ++ [k] with hq1def
    set n : Nat := q1.length - s.maxsize with hndef
    have hsplit : q1.take n ++ q1.drop n = q1 := List.take_append_drop n q1
    have hdisj : ∀ a, a ∈ q1.drop n → a ∉ q1.take n := by
      intro a ha hb
      have : (q1.take n ++ q1.drop n).Nodup := by rw [hsplit]; exact hq1n
      exact (List.disjoint_of_nodup_append this) hb ha
    refine ⟨hqn', hsn', ?_, ?_, Or.inr (hm' ▸ hlen)⟩
    · intro a ha
      rw [hq'] at ha
      have hatake : a ∉ q1.take n := hdisj a ha
      have haq1 : a ∈ q1 := by
        rw [← hsplit]
        exact List.mem_append.2 (Or.inr ha)
      exact (hmem' a).2 ⟨(hmemq1 a).1 haq1, hatake⟩
    · intro a ha
      rcases (hmem' a).1 ha with ⟨hastore, hatake⟩
      have haq1 : a ∈ q1 := (hmemq1 a).2 hastore
      rw [hq']
      rcases List.mem_append.1 (hsplit ▸ haq1) with h1 | h1
      · exact absurd h1 hatake
      · exact h1

theorem lru_delitem_inv (s : LRUShelf.State) (k : Key) (h : LRUShelf.Inv s) :
    LRUShelf.Inv (LRUShelf.delitem s k).2 := by
  obtain ⟨hqn, hsn, hqs, hsq, hb⟩ := h
  by_cases hmem : k ∈ dictKeys s.store
  · have hq : k ∈ s.queue := hsq k hmem
    rw [lru_delitem_mem s k hmem hq]
    refine ⟨hqn.erase k, nodup_dictKeys_dictDel k s.store hsn, ?_, ?_, ?_⟩
    · intro a ha
      have h1 := hqn.mem_erase_iff.1 ha
      exact (mem_dictKeys_dictDel a k s.store).2 ⟨hqs a h1.2, h1.1⟩
    · intro a ha
      have h1 := (mem_dictKeys_dictDel a k s.store).1 ha
      exact (List.mem_erase_of_ne h1.2).2 (hsq a h1.1)
    · rcases hb with hb | hb
      · exact Or.inl hb
      · exact Or.inr (le_trans (List.length_erase_le k s.queue) hb)
  · rw [lru_delitem_not_mem s k hmem]
    exact ⟨hqn, hsn, hqs, hsq, hb⟩

theorem lru_setitem_inv (s : LRUShelf.State) (k : Key) (v : Val)
    (h : LRUShelf.Inv s) : LRUShelf.Inv (LRUShelf.setitem s k v).2 := by
  obtain ⟨hqn, hsn, hqs, hsq, _⟩ := h
  rw [LRUShelf.setitem]
  apply lru_remove_add_key_inv
  · exact hqn
  · exact nodup_dictKeys_dictSet k v s.store hsn
  · intro a ha
    exact (mem_dictKeys_dictSet a k v s.store).2 (Or.inr (hqs a ha))
  · intro a ha
    rcases (mem_dictKeys_dictSet a k v s.store).1 ha with rfl | h1
    · exact Or.inl rfl
    · exact Or.inr (hsq a h1)
  · exact (mem_dictKeys_dictSet k k v s.store).2 (Or.inl rfl)

theorem lru_getitem_inv (s : LRUShelf.State) (k : Key)
    (h : LRUShelf.Inv s) : LRUShelf.Inv (LRUShelf.getitem s k).2 := by
  obtain ⟨hqn, hsn, hqs, hsq, hb⟩ := h
  rw [LRUShelf.getitem]
  cases hget : dictGet k s.store with
  | none => exact ⟨hqn, hsn, hqs, hsq, hb⟩
  | some v =>
    have hk : k ∈ dictKeys s.store := by
      rw [← dictGet_isSome_iff, hget]
      rfl
    have hinv := lru_remove_add_key_inv s k hqn hsn hqs
      (fun a ha => Or.inr (hsq a ha)) hk
    rcases hrak : LRUShelf.remove_add_key s k with ⟨o, s'⟩
    cases o with
    | none => simpa [hrak] using hinv
    | some e => simpa [hrak] using hinv

theorem lru_step_inv (s : LRUShelf.State) (op : LRUShelf.Op)
    (h : LRUShelf.Inv s) : LRUShelf.Inv (LRUShelf.step s op) := by
  cases op with
  | set k v => exact lru_setitem_inv s k v h
  | get k => exact lru_getitem_inv s k h
  | del k => exact lru_delitem_inv s k h
  | iterate => exact h

theorem lru_run_inv (ops : List LRUShelf.Op) (s : LRUShelf.State)
    (h : LRUShelf.Inv s) : LRUShelf.Inv (LRUShelf.run ops s) := by
  induction ops generalizing s with
  | nil => exact h
  | cons op ops ih => exact ih (LRUShelf.step s op) (lru_step_inv s op h)

theorem lru_init_inv (m : Nat) : LRUShelf.Inv (LRUShelf.init m) := by
  refine ⟨List.nodup_nil, List.nodup_nil, ?_, ?_, Or.inr (Nat.zero_le m)⟩ <;>
    intro a ha <;> exact absurd ha (List.not_mem_nil a)

theorem lru_getitem_some (s : LRUShelf.State) (k : Key) (v : Val)
    (h : LRUShelf.Inv s) (hget : dictGet k s.store = some v) :
    LRUShelf.getitem s k = (.ok v, { s with queue := s.queue.erase k ++ [k] }) := by
  obtain ⟨hqn, hsn, hqs, hsq, hb⟩ := h
  have hk : k ∈ dictKeys s.store := by
    rw [← dictGet_isSome_iff, hget]
    rfl
  have hkq : k ∈ s.queue := hsq k hk
  set s1 : LRUShelf.State := { s with queue := s.queue.erase k ++ [k] } with hs1
  have hlen1 : s1.queue.length = s.queue.length := by
    rw [hs1]
    simp only [List.length_append, List.length_singleton]
    rw [List.length_erase_of_mem hkq]
    have : 1 ≤ s.queue.length := List.length_pos.2 (List.ne_nil_of_mem hkq)
    omega
  have hrak : LRUShelf.remove_add_key s k = (none, s1) := by
    rw [LRUShelf.remove_add_key]
    by_cases hm : s.maxsize = 0
    · simp only [if_pos hm]
    · simp only [if_neg hm]
      apply lru_evictLoop_of_le
      rw [hlen1]
      rcases hb with hb | hb
      · exact absurd hb hm
      · exact hb
  rw [LRUShelf.getitem, hget, hrak]

theorem lru_getitem_none (s : LRUShelf.State) (k : Key)
    (hget : dictGet k s.store = none) :
    LRUShelf.getitem s k = (.error .notFound, s) := by
  rw [LRUShelf.getitem, hget]

/-! ### Lemmas about the composed LRU+TTL model -/

theorem lt_delitem_index (s : LRUTimeoutShelf.State) :
    LRUTimeoutShelf.delitem s INDEX = (some .protectedKey, s) := by
  simp [LRUTimeoutShelf.delitem]

theorem lt_delitem_not_mem (s : LRUTimeoutShelf.State) (k : Key)
    (hkI : k ≠ INDEX) (h : k ∉ dictKeys s.store) :
    LRUTimeoutShelf.delitem s k = (some .notFound, s) := by
  have h1 : ¬(dictGet k s.store).isSome := fun hs => h ((dictGet_isSome_iff k s.store).1 hs)
  simp [LRUTimeoutShelf.delitem, hkI, h1]

theorem lt_delitem_mem (s : LRUTimeoutShelf.State) (k : Key)
    (hkI : k ≠ INDEX) (hmem : k ∈ dictKeys s.store)
    (hidx : k ∈ dictKeys s.index) (hq : k ∈ s.queue) :
    LRUTimeoutShelf.delitem s k =
      (none, { s with store := dictDel k s.store, index := dictDel k s.index,
                      queue := s.queue.erase k }) := by
  have h1 : (dictGet k s.store).isSome := (dictGet_isSome_iff k s.store).2 hmem
  have h2 : (dictGet k s.index).isSome := (dictGet_isSome_iff k s.index).2 hidx
  simp [LRUTimeoutShelf.delitem, hkI, h1, h2, hq]

theorem lt_delitem_inv (s : LRUTimeoutShelf.State) (k : Key)
    (h : LRUTimeoutShelf.Inv s) : LRUTimeoutShelf.Inv (LRUTimeoutShelf.delitem s k).2 := by
  obtain ⟨h1, h2, h3, h4, h5, h6, h7, h8, h9, h10⟩ := h
  by_cases hkI : k = INDEX
  · subst hkI
    rw [lt_delitem_index s]
    exact ⟨h1, h2, h3, h4, h5, h6, h7, h8, h9, h10⟩
  · by_cases hmem : k ∈ dictKeys s.store
    · have hidx : k ∈ dictKeys s.index := h10 k hmem hkI
      have hq : k ∈ s.queue := h8 k hmem hkI
      rw [lt_delitem_mem s k hkI hmem hidx hq]
      refine ⟨h1.erase k, nodup_dictKeys_dictDel k s.store h2,
        nodup_dictKeys_dictDel k s.index h3, ?_, ?_, ?_, ?_, ?_, ?_, ?_⟩
      · exact (mem_dictKeys_dictDel INDEX k s.store).2 ⟨h4, fun he => hkI he.symm⟩
      · exact fun hc => h5 (List.erase_subset k s.queue hc)
      · exact fun hc => h6 ((mem_dictKeys_dictDel INDEX k s.index).1 hc).1
      · intro a ha
        have ha1 := h1.mem_erase_iff.1 ha
        exact (mem_dictKeys_dictDel a k s.store).2 ⟨h7 a ha1.2, ha1.1⟩
      · intro a ha haI
        have ha1 := (mem_dictKeys_dictDel a k s.store).1 ha
        exact (List.mem_erase_of_ne ha1.2).2 (h8 a ha1.1 haI)
      · intro a ha
        have ha1 := (mem_dictKeys_dictDel a k s.index).1 ha
        exact (mem_dictKeys_dictDel a k s.store).2 ⟨h9 a ha1.1, ha1.2⟩
      · intro a ha haI
        have ha1 := (mem_dictKeys_dictDel a k s.store).1 ha
        exact (mem_dictKeys_dictDel a k s.index).2 ⟨h10 a ha1.1 haI, ha1.2⟩
    · rw [lt_delitem_not_mem s k hkI hmem]
      exact ⟨h1, h2, h3, h4, h5, h6, h7, h8, h9, h10⟩

theorem lt_is_expired_snd (s : LRUTimeoutShelf.State) (k : Key) (now : Nat) :
    (LRUTimeoutShelf.is_expired s k now).2 = s ∨
    (LRUTimeoutShelf.is_expired s k now).2 = (LRUTimeoutShelf.delitem s k).2 := by
  rw [LRUTimeoutShelf.is_expired]
  cases hidx : dictGet k s.index with
  | none => exact Or.inl rfl
  | some o =>
    cases o with
    | none => exact Or.inl rfl
    | some t =>
      by_cases hle : now ≤ t
      · exact Or.inl (by simp [hle])
      · refine Or.inr ?_
        simp only [if_neg hle]
        rcases hdel : LRUTimeoutShelf.delitem s k with ⟨o2, s2⟩
        cases o2 with
        | none => rfl
        | some e => rfl

theorem lt_is_expired_inv (s : LRUTimeoutShelf.State) (k : Key) (now : Nat)
    (h : LRUTimeoutShelf.Inv s) :
    LRUTimeoutShelf.Inv (LRUTimeoutShelf.is_expired s k now).2 := by
  rcases lt_is_expired_snd s k now with heq | heq
  · rw [heq]
    exact h
  · rw [heq]
    exact lt_delitem_inv s k h

theorem lt_is_expired_false_eq (s : LRUTimeoutShelf.State) (k : Key) (now : Nat)
    (s' : LRUTimeoutShelf.State)
    (h : LRUTimeoutShelf.is_expired s k now = (.ok false, s')) : s' = s := by
  rw [LRUTimeoutShelf.is_expired] at h
  cases hidx : dictGet k s.index with
  | none =>
    rw [hidx] at h
    simp at h
  | some o =>
    cases o with
    | none =>
      rw [hidx] at h
      simp at h
      exact h.symm
    | some t =>
      rw [hidx] at h
      by_cases hle : now ≤ t
      · simp [hle] at h
        exact h.symm
      · simp only [if_neg hle] at h
        rcases hdel : LRUTimeoutShelf.delitem s k with ⟨o2, s2⟩
        rw [hdel] at h
        cases o2 with
        | none => simp at h
        | some e => simp at h

theorem lt_evictLoop_inv :
    ∀ (fuel : Nat) (s : LRUTimeoutShelf.State), LRUTimeoutShelf.Inv s →
      LRUTimeoutShelf.Inv (LRUTimeoutShelf.evictLoop fuel s).2 := by
  intro fuel
  induction fuel with
  | zero => intro s h; exact h
  | succ fuel ih =>
    intro s h
    rw [LRUTimeoutShelf.evictLoop]
    by_cases hlt : s.maxsize < s.queue.length
    · rw [if_pos hlt]
      split
      · exact h
      · rename_i hd tl heq
        rcases hdel : LRUTimeoutShelf.delitem s hd with ⟨o, s'⟩
        have hinv : LRUTimeoutShelf.Inv s' := by
          have := lt_delitem_inv s hd h
          rw [hdel] at this
          exact this
        cases o with
        | none => exact ih s' hinv
        | some e => exact hinv
    · rw [if_neg hlt]
      exact h

theorem lt_remove_add_key_zero (s : LRUTimeoutShelf.State) (k : Key)
    (hm : s.maxsize = 0) :
    LRUTimeoutShelf.remove_add_key s k =
      (none, { s with queue := s.queue.erase k ++ [k] }) := by
  simp [LRUTimeoutShelf.remove_add_key, hm]

theorem lt_remove_add_key_pos (s : LRUTimeoutShelf.State) (k : Key)
    (hm : s.maxsize ≠ 0) :
    LRUTimeoutShelf.remove_add_key s k =
      LRUTimeoutShelf.evictLoop (s.queue.erase k ++ [k]).length
        { s with queue := s.queue.erase k ++ [k] } := by
  simp [LRUTimeoutShelf.remove_add_key, hm]

theorem lt_remove_add_key_inv (s : LRUTimeoutShelf.State) (k : Key)
    (h1 : s.queue.Nodup) (h2 : (dictKeys s.store).Nodup) (h3 : (dictKeys s.index).Nodup)
    (h4 : INDEX ∈ dictKeys s.store) (h5 : INDEX ∉ s.queue) (h6 : INDEX ∉ dictKeys s.index)
    (h7 : ∀ a ∈ s.queue, a ∈ dictKeys s.store)
    (h8 : ∀ a ∈ dictKeys s.store, a ≠ INDEX → a = k ∨ a ∈ s.queue)
    (h9 : ∀ a ∈ dictKeys s.index, a ∈ dictKeys s.store)
    (h10 : ∀ a ∈ dictKeys s.store, a ≠ INDEX → a ∈ dictKeys s.index)
    (hk : k ∈ dictKeys s.store) (hkI : k ≠ INDEX) :
    LRUTimeoutShelf.Inv (LRUTimeoutShelf.remove_add_key s k).2 := by
  have hinv1 : LRUTimeoutShelf.Inv { s with queue := s.queue.erase k ++ [k] } := by
    refine ⟨?_, h2, h3, h4, ?_, h6, ?_, ?_, h9, h10⟩
    · show (s.queue.erase k ++ [k]).Nodup
      refine List.Nodup.append (h1.erase k) (List.nodup_singleton k) ?_
      intro a ha hb
      rw [List.mem_singleton] at hb
      subst hb
      exact (h1.mem_erase_iff.1 ha).1 rfl
    · show INDEX ∉ s.queue.erase k ++ [k]
      rw [List.mem_append, List.mem_singleton]
      rintro (hc | hc)
      · exact h5 (List.erase_subset k s.queue hc)
      · exact hkI hc.symm
    · show ∀ a ∈ s.queue.erase k ++ [k], a ∈ dictKeys s.store
      intro a ha
      rw [List.mem_append, List.mem_singleton] at ha
      rcases ha with ha | rfl
      · exact h7 a (List.erase_subset k s.queue ha)
      · exact hk
    · show ∀ a ∈ dictKeys s.store, a ≠ INDEX → a ∈ s.queue.erase k ++ [k]
      intro a ha haI
      rw [List.mem_append, List.mem_singleton]
      rcases h8 a ha haI with rfl | haq
      · exact Or.inr rfl
      · by_cases hak : a = k
        · exact Or.inr hak
        · exact Or.inl ((List.mem_erase_of_ne hak).2 haq)
  by_cases hm : s.maxsize = 0
  · rw [lt_remove_add_key_zero s k hm]
    exact hinv1
  · rw [lt_remove_add_key_pos s k hm]
    exact lt_evictLoop_inv _ _ hinv1

theorem lt_setitem_inv (s : LRUTimeoutShelf.State) (k : Key) (v : Val) (now : Nat)
    (h : LRUTimeoutShelf.Inv s) : LRUTimeoutShelf.Inv (LRUTimeoutShelf.setitem s k v now).2 := by
  obtain ⟨h1, h2, h3, h4, h5, h6, h7, h8, h9, h10⟩ := h
  by_cases hkI : k = INDEX
  · simp only [LRUTimeoutShelf.setitem, LRUTimeoutShelf.timeout_setitem, if_pos hkI]
    exact ⟨h1, h2, h3, h4, h5, h6, h7, h8, h9, h10⟩
  · have heq : LRUTimeoutShelf.setitem s k v now =
        LRUTimeoutShelf.remove_add_key
          { s with store := dictSet k v s.store,
                   index := dictSet k
                     (if s.timeout = 0 then none else some (now + s.timeout)) s.index } k := by
      simp only [LRUTimeoutShelf.setitem, LRUTimeoutShelf.timeout_setitem, if_neg hkI]
    rw [heq]
    refine lt_remove_add_key_inv _ k ?_ ?_ ?_ ?_ ?_ ?_ ?_ ?_ ?_ ?_ ?_ hkI
    · exact h1
    · exact nodup_dictKeys_dictSet k v s.store h2
    · exact nodup_dictKeys_dictSet k _ s.index h3
    · exact (mem_dictKeys_dictSet INDEX k v s.store).2 (Or.inr h4)
    · exact h5
    · show INDEX ∉ dictKeys (dictSet k _ s.index)
      intro hc
      rcases (mem_dictKeys_dictSet INDEX k _ s.index).1 hc with hc1 | hc1
      · exact hkI hc1.symm
      · exact h6 hc1
    · show ∀ a ∈ s.queue, a ∈ dictKeys (dictSet k v s.store)
      intro a ha
      exact (mem_dictKeys_dictSet a k v s.store).2 (Or.inr (h7 a ha))
    · show ∀ a ∈ dictKeys (dictSet k v s.store), a ≠ INDEX → a = k ∨ a ∈ s.queue
      intro a ha haI
      rcases (mem_dictKeys_dictSet a k v s.store).1 ha with h' | ha1
      · exact Or.inl h'
      · exact Or.inr (h8 a ha1 haI)
    · show ∀ a ∈ dictKeys (dictSet k _ s.index), a ∈ dictKeys (dictSet k v s.store)
      intro a ha
      rcases (mem_dictKeys_dictSet a k _ s.index).1 ha with h' | ha1
      · exact (mem_dictKeys_dictSet a k v s.store).2 (Or.inl h')
      · exact (mem_dictKeys_dictSet a k v s.store).2 (Or.inr (h9 a ha1))
    · show ∀ a ∈ dictKeys (dictSet k v s.store), a ≠ INDEX →
          a ∈ dictKeys (dictSet k _ s.index)
      intro a ha haI
      rcases (mem_dictKeys_dictSet a k v s.store).1 ha with h' | ha1
      · exact (mem_dictKeys_dictSet a k _ s.index).2 (Or.inl h')
      · exact (mem_dictKeys_dictSet a k _ s.index).2 (Or.inr (h10 a ha1 haI))
    · exact (mem_dictKeys_dictSet k k v s.store).2 (Or.inl rfl)

theorem lt_timeout_getitem_inv (s : LRUTimeoutShelf.State) (k : Key) (now : Nat)
    (h : LRUTimeoutShelf.Inv s) :
    LRUTimeoutShelf.Inv (LRUTimeoutShelf.timeout_getitem s k now).2 := by
  rw [LRUTimeoutShelf.timeout_getitem]
  by_cases hkI : k = INDEX
  · rw [if_pos hkI]
    exact h
  · rw [if_neg hkI]
    rcases hie : LRUTimeoutShelf.is_expired s k now with ⟨r, st⟩
    have hst : LRUTimeoutShelf.Inv st := by
      have := lt_is_expired_inv s k now h
      rw [hie] at this
      exact this
    cases r with
    | ok b =>
      cases b with
      | false =>
        dsimp only
        cases hget : dictGet k st.store with
        | some v => exact hst
        | none => exact hst
      | true => exact hst
    | error e => exact hst

theorem lt_timeout_getitem_ok (s : LRUTimeoutShelf.State) (k : Key) (now : Nat)
    (v : Val) (s' : LRUTimeoutShelf.State)
    (h : LRUTimeoutShelf.timeout_getitem s k now = (.ok v, s')) :
    s' = s ∧ dictGet k s.store = some v ∧ k ≠ INDEX := by
  rw [LRUTimeoutShelf.timeout_getitem] at h
  by_cases hkI : k = INDEX
  · rw [if_pos hkI] at h
    simp at h
  · rw [if_neg hkI] at h
    rcases hie : LRUTimeoutShelf.is_expired s k now with ⟨r, st⟩
    rw [hie] at h
    cases r with
    | ok b =>
      cases b with
      | false =>
        have hst : st = s := lt_is_expired_false_eq s k now st hie
        dsimp only at h
        cases hget : dictGet k st.store with
        | some w =>
          rw [hget] at h
          simp at h
          obtain ⟨hv, hs⟩ := h
          subst hst
          exact ⟨hs.symm, by rw [hget, hv], hkI⟩
        | none =>
          rw [hget] at h
          simp at h
      | true => simp at h
    | error e => simp at h

theorem lt_getitem_inv (s : LRUTimeoutShelf.State) (k : Key) (now : Nat)
    (h : LRUTimeoutShelf.Inv s) :
    LRUTimeoutShelf.Inv (LRUTimeoutShelf.getitem s k now).2 := by
  rw [LRUTimeoutShelf.getitem]
  rcases htg : LRUTimeoutShelf.timeout_getitem s k now with ⟨r, s'⟩
  cases r with
  | error e =>
    have := lt_timeout_getitem_inv s k now h
    rw [htg] at this
    exact this
  | ok v =>
    obtain ⟨hs', hget, hkI⟩ := lt_timeout_getitem_ok s k now v s' htg
    subst hs'
    obtain ⟨h1, h2, h3, h4, h5, h6, h7, h8, h9, h10⟩ := h
    have hk : k ∈ dictKeys s'.store := by
      rw [← dictGet_isSome_iff, hget]
      rfl
    have hinv := lt_remove_add_key_inv s' k h1 h2 h3 h4 h5 h6 h7
      (fun a ha haI => Or.inr (h8 a ha haI)) h9 h10 hk hkI
    dsimp only
    rcases hrak : LRUTimeoutShelf.remove_add_key s' k with ⟨o, s''⟩
    have hinv'' : LRUTimeoutShelf.Inv s'' := by
      rw [hrak] at hinv
      exact hinv
    cases o with
    | none => exact hinv''
    | some e => exact hinv''

theorem lt_iterGo_inv (now : Nat) :
    ∀ (ks : List Key) (s : LRUTimeoutShelf.State), LRUTimeoutShelf.Inv s →
      LRUTimeoutShelf.Inv (LRUTimeoutShelf.iterGo now s ks).2 := by
  intro ks
  induction ks with
  | nil => intro s h; exact h
  | cons k ks ih =>
    intro s h
    rw [LRUTimeoutShelf.iterGo]
    by_cases hkI : k = INDEX
    · rw [if_pos hkI]
      exact ih s h
    · rw [if_neg hkI]
      rcases hie : LRUTimeoutShelf.is_expired s k now with ⟨r, st⟩
      have hst : LRUTimeoutShelf.Inv st := by
        have := lt_is_expired_inv s k now h
        rw [hie] at this
        exact this
      cases r with
      | ok b =>
        cases b with
        | false =>
          dsimp only
          rcases hrec : LRUTimeoutShelf.iterGo now st ks with ⟨r2, st2⟩
          have hst2 : LRUTimeoutShelf.Inv st2 := by
            have := ih st hst
            rw [hrec] at this
            exact this
          cases r2 with
          | ok out => exact hst2
          | error e => exact hst2
        | true => exact ih st hst
      | error e => exact hst

theorem lt_step_inv (s : LRUTimeoutShelf.State) (op : LRUTimeoutShelf.Op)
    (h : LRUTimeoutShelf.Inv s) : LRUTimeoutShelf.Inv (LRUTimeoutShelf.step s op) := by
  cases op with
  | set k v now => exact lt_setitem_inv s k v now h
  | get k now => exact lt_getitem_inv s k now h
  | del k => exact lt_delitem_inv s k h
  | iterate now => exact lt_iterGo_inv now (dictKeys s.store) s h

theorem lt_run_inv (ops : List LRUTimeoutShelf.Op) (s : LRUTimeoutShelf.State)
    (h : LRUTimeoutShelf.Inv s) : LRUTimeoutShelf.Inv (LRUTimeoutShelf.run ops s) := by
  induction ops generalizing s with
  | nil => exact h
  | cons op ops ih => exact ih (LRUTimeoutShelf.step s op) (lt_step_inv s op h)

theorem lt_init_inv (m t : Nat) : LRUTimeoutShelf.Inv (LRUTimeoutShelf.init m t) := by
  refine ⟨List.nodup_nil, ?_, List.nodup_nil, ?_, ?_, ?_, ?_, ?_, ?_, ?_⟩
  · show ([INDEX] : List Key).Nodup
    exact List.nodup_singleton INDEX
  · show INDEX ∈ [INDEX]
    exact List.mem_singleton.2 rfl
  · exact List.not_mem_nil INDEX
  · exact List.not_mem_nil INDEX
  · intro a ha
    exact absurd ha (List.not_mem_nil a)
  · intro a ha haI
    rw [show dictKeys (LRUTimeoutShelf.init m t).store = [INDEX] from rfl] at ha
    exact absurd (List.mem_singleton.1 ha) haI
  · intro a ha
    exact absurd ha (List.not_mem_nil a)
  · intro a ha haI
    rw [show dictKeys (LRUTimeoutShelf.init m t).store = [INDEX] from rfl] at ha
    exact absurd (List.mem_singleton.1 ha) haI

/-! ### Lemmas about the TTL-only model -/

theorem ts_delitem_mem (s : TimeoutShelf.State) (k : Key)
    (hkI : k ≠ INDEX) (hmem : k ∈ dictKeys s.store) (hidx : k ∈ dictKeys s.index) :
    TimeoutShelf.delitem s k =
      (none, { s with store := dictDel k s.store, index := dictDel k s.index }) := by
  have h1 : (dictGet k s.store).isSome := (dictGet_isSome_iff k s.store).2 hmem
  have h2 : (dictGet k s.index).isSome := (dictGet_isSome_iff k s.index).2 hidx
  simp [TimeoutShelf.delitem, hkI, h1, h2]

theorem ts_is_expired_dead (s : TimeoutShelf.State) (k : Key) (t now : Nat)
    (hkI : k ≠ INDEX) (hmem : k ∈ dictKeys s.store)
    (hidx : dictGet k s.index = some (some t)) (hlt : t < now) :
    TimeoutShelf.is_expired s k now =
      (.ok true, { s with store := dictDel k s.store, index := dictDel k s.index }) := by
  have hidxmem : k ∈ dictKeys s.index := by
    rw [← dictGet_isSome_iff, hidx]
    rfl
  rw [TimeoutShelf.is_expired, hidx]
  dsimp only
  rw [if_neg (by omega : ¬now ≤ t), ts_delitem_mem s k hkI hmem hidxmem]

theorem ts_is_expired_live (s : TimeoutShelf.State) (k : Key) (t now : Nat)
    (hidx : dictGet k s.index = some (some t)) (hle : now ≤ t) :
    TimeoutShelf.is_expired s k now = (.ok false, s) := by
  rw [TimeoutShelf.is_expired, hidx]
  dsimp only
  rw [if_pos hle]

theorem ts_is_expired_never (s : TimeoutShelf.State) (k : Key) (now : Nat)
    (hidx : dictGet k s.index = some none) :
    TimeoutShelf.is_expired s k now = (.ok false, s) := by
  rw [TimeoutShelf.is_expired, hidx]

theorem ts_getitem_expired (s : TimeoutShelf.State) (k : Key) (t now : Nat)
    (hkI : k ≠ INDEX) (hmem : k ∈ dictKeys s.store)
    (hidx : dictGet k s.index = some (some t)) (hlt : t < now) :
    TimeoutShelf.getitem s k now =
      (.error .notFound,
        { s with store := dictDel k s.store, index := dictDel k s.index }) := by
  rw [TimeoutShelf.getitem, if_neg hkI, ts_is_expired_dead s k t now hkI hmem hidx hlt]

theorem ts_getitem_live (s : TimeoutShelf.State) (k : Key) (v : Val) (t : Nat) (now : Nat)
    (hkI : k ≠ INDEX) (hget : dictGet k s.store = some v)
    (hidx : dictGet k s.index = some (some t)) (hle : now ≤ t) :
    TimeoutShelf.getitem s k now = (.ok v, s) := by
  rw [TimeoutShelf.getitem, if_neg hkI, ts_is_expired_live s k t now hidx hle]
  dsimp only
  rw [hget]

theorem ts_getitem_never (s : TimeoutShelf.State) (k : Key) (v : Val) (now : Nat)
    (hkI : k ≠ INDEX) (hget : dictGet k s.store = some v)
    (hidx : dictGet k s.index = some none) :
    TimeoutShelf.getitem s k now = (.ok v, s) := by
  rw [TimeoutShelf.getitem, if_neg hkI, ts_is_expired_never s k now hidx]
  dsimp only
  rw [hget]

theorem ts_setitem_not_index (s : TimeoutShelf.State) (k : Key) (v : Val) (now : Nat)
    (hkI : k ≠ INDEX) :
    TimeoutShelf.setitem s k v now =
      (none, { s with
        store := dictSet k v s.store,
        index := dictSet k (if s.timeout = 0 then none else some (now + s.timeout))
          s.index }) := by
  rw [TimeoutShelf.setitem, if_neg hkI]

theorem ts_delitem_sentinel (s : TimeoutShelf.State) (k : Key)
    (h : TimeoutShelf.SentinelInv s) :
    TimeoutShelf.SentinelInv (TimeoutShelf.delitem s k).2 := by
  obtain ⟨hn, hi⟩ := h
  rw [TimeoutShelf.delitem]
  by_cases hkI : k = INDEX
  · rw [if_pos hkI]
    exact ⟨hn, hi⟩
  · rw [if_neg hkI]
    by_cases hmem : (dictGet k s.store).isSome
    · rw [if_pos hmem]
      have hstore : (dictKeys (dictDel k s.store)).Nodup ∧
          INDEX ∈ dictKeys (dictDel k s.store) := by
        refine ⟨nodup_dictKeys_dictDel k s.store hn, ?_⟩
        exact (mem_dictKeys_dictDel INDEX k s.store).2 ⟨hi, fun he => hkI he.symm⟩
      by_cases hidx : (dictGet k s.index).isSome
      · rw [if_pos hidx]
        exact hstore
      · rw [if_neg hidx]
        exact hstore
    · rw [if_neg hmem]
      exact ⟨hn, hi⟩

theorem ts_is_expired_sentinel (s : TimeoutShelf.State) (k : Key) (now : Nat)
    (h : TimeoutShelf.SentinelInv s) :
    TimeoutShelf.SentinelInv (TimeoutShelf.is_expired s k now).2 := by
  rw [TimeoutShelf.is_expired]
  cases hidx : dictGet k s.index with
  | none => exact h
  | some o =>
    cases o with
    | none => exact h
    | some t =>
      dsimp only
      by_cases hle : now ≤ t
      · rw [if_pos hle]
        exact h
      · rw [if_neg hle]
        rcases hdel : TimeoutShelf.delitem s k with ⟨o2, s2⟩
        have hs2 : TimeoutShelf.SentinelInv s2 := by
          have := ts_delitem_sentinel s k h
          rw [hdel] at this
          exact this
        cases o2 with
        | none => exact hs2
        | some e => exact hs2

theorem ts_getitem_sentinel (s : TimeoutShelf.State) (k : Key) (now : Nat)
    (h : TimeoutShelf.SentinelInv s) :
    TimeoutShelf.SentinelInv (TimeoutShelf.getitem s k now).2 := by
  rw [TimeoutShelf.getitem]
  by_cases hkI : k = INDEX
  · rw [if_pos hkI]
    exact h
  · rw [if_neg hkI]
    rcases hie : TimeoutShelf.is_expired s k now with ⟨r, st⟩
    have hst : TimeoutShelf.SentinelInv st := by
      have := ts_is_expired_sentinel s k now h
      rw [hie] at this
      exact this
    cases r with
    | ok b =>
      cases b with
      | false =>
        dsimp only
        cases hget : dictGet k st.store with
        | some v => exact hst
        | none => exact hst
      | true => exact hst
    | error e => exact hst

theorem ts_setitem_sentinel (s : TimeoutShelf.State) (k : Key) (v : Val) (now : Nat)
    (h : TimeoutShelf.SentinelInv s) :
    TimeoutShelf.SentinelInv (TimeoutShelf.setitem s k v now).2 := by
  obtain ⟨hn, hi⟩ := h
  rw [TimeoutShelf.setitem]
  by_cases hkI : k = INDEX
  · rw [if_pos hkI]
    exact ⟨hn, hi⟩
  · rw [if_neg hkI]
    exact ⟨nodup_dictKeys_dictSet k v s.store hn,
      (mem_dictKeys_dictSet INDEX k v s.store).2 (Or.inr hi)⟩

theorem ts_step_sentinel (s : TimeoutShelf.State) (op : TimeoutShelf.Op)
    (h : TimeoutShelf.SentinelInv s) :
    TimeoutShelf.SentinelInv (TimeoutShelf.step s op) := by
  cases op with
  | set k v now => exact ts_setitem_sentinel s k v now h
  | get k now => exact ts_getitem_sentinel s k now h
  | del k => exact ts_delitem_sentinel s k h

theorem ts_run_sentinel (ops : List TimeoutShelf.Op) (s : TimeoutShelf.State)
    (h : TimeoutShelf.SentinelInv s) :
    TimeoutShelf.SentinelInv (TimeoutShelf.run ops s) := by
  induction ops generalizing s with
  | nil => exact h
  | cons op ops ih => exact ih (TimeoutShelf.step s op) (ts_step_sentinel s op h)

theorem ts_init_sentinel (t : Nat) : TimeoutShelf.SentinelInv (TimeoutShelf.init t) := by
  exact ⟨List.nodup_singleton INDEX, List.mem_singleton.2 rfl⟩

theorem ts_iterGo_not_index (now : Nat) :
    ∀ (ks : List Key) (s : TimeoutShelf.State) (out : List Key)
      (s' : TimeoutShelf.State),
      TimeoutShelf.iterGo now s ks = (.ok out, s') → INDEX ∉ out := by
  intro ks
  induction ks with
  | nil =>
    intro s out s' h
    rw [TimeoutShelf.iterGo] at h
    simp at h
    rw [h.1]
    exact List.not_mem_nil INDEX
  | cons k ks ih =>
    intro s out s' h
    rw [TimeoutShelf.iterGo] at h
    by_cases hkI : k = INDEX
    · rw [if_pos hkI] at h
      exact ih s out s' h
    · rw [if_neg hkI] at h
      rcases hie : TimeoutShelf.is_expired s k now with ⟨r, st⟩
      rw [hie] at h
      cases r with
      | ok b =>
        cases b with
        | false =>
          dsimp only at h
          rcases hrec : TimeoutShelf.iterGo now st ks with ⟨r2, st2⟩
          rw [hrec] at h
          cases r2 with
          | ok out2 =>
            simp at h
            obtain ⟨hout, _⟩ := h
            rw [← hout]
            rw [List.mem_cons]
            rintro (hc | hc)
            · exact hkI hc.symm
            · exact ih st out2 st2 hrec hc
          | error e => simp at h
        | true => exact ih st out s' h
      | error e => simp at h

theorem ts_length_eq (s : TimeoutShelf.State) (h : TimeoutShelf.SentinelInv s) :
    TimeoutShelf.length s = (((dictKeys s.store).erase INDEX).length : Int) := by
  obtain ⟨hn, hi⟩ := h
  have h1 : ((dictKeys s.store).erase INDEX).length = (dictKeys s.store).length - 1 :=
    List.length_erase_of_mem hi
  have h2 : (dictKeys s.store).length = s.store.length := dictKeys_length s.store
  have h3 : 1 ≤ (dictKeys s.store).length :=
    List.length_pos.2 (List.ne_nil_of_mem hi)
  rw [TimeoutShelf.length]
  omega

/-! ### Claim theorems -/

/-- C1: in every layered configuration with a recency queue (LRU-only, and LRU
over TTL), after any sequence of public operations (get, set, delete, iterate)
starting from a freshly opened empty shelf, the set of keys held in the
RecencyQueue equals the set of keys present in the wrapped store, excluding the
sentinel in the TTL case (keys count as live until purged); in particular a key
purged by the TimeoutLayer during a get or an iteration leaves the store, and
hence (by the stated equivalence) is gone from the RecencyQueue as well.  The
TTL-only configuration has no RecencyQueue, so it contributes nothing. -/
theorem claim_C1_queue_matches_live_keys :
    (∀ (m : Nat) (ops : List LRUShelf.Op) (a : Key),
      a ∈ (LRUShelf.run ops (LRUShelf.init m)).queue ↔
        a ∈ dictKeys (LRUShelf.run ops (LRUShelf.init m)).store) ∧
    (∀ (m t : Nat) (ops : List LRUTimeoutShelf.Op) (a : Key),
      a ∈ (LRUTimeoutShelf.run ops (LRUTimeoutShelf.init m t)).queue ↔
        (a ∈ dictKeys (LRUTimeoutShelf.run ops (LRUTimeoutShelf.init m t)).store ∧
          a ≠ INDEX)) := by
  constructor
  · intro m ops a
    obtain ⟨_, _, hqs, hsq, _⟩ := lru_run_inv ops (LRUShelf.init m) (lru_init_inv m)
    exact ⟨fun h => hqs a h, fun h => hsq a h⟩
  · intro m t ops a
    obtain ⟨_, _, _, _, h5, _, h7, h8, _, _⟩ :=
      lt_run_inv ops (LRUTimeoutShelf.init m t) (lt_init_inv m t)
    constructor
    · intro h
      refine ⟨h7 a h, ?_⟩
      rintro rfl
      exact h5 h
    · rintro ⟨h, hne⟩
      exact h8 a h hne

/-- C2 counterexample: in `cexC2` the non-sentinel key `"k"` is present in the
store and expired at time `10` (its expiry instant `5` has passed), yet
`__contains__` reports it present (`true`), not absent; and since `contains`
is a pure function of the state (it consults only the sentinel guard and raw
store containment), no purge of the key can occur.  This refutes the claim
that a present-but-expired key is lazily purged and reported absent. -/
theorem claim_C2_counterexample :
    dictGet "k" cexC2.store = some 7 ∧
    dictGet "k" cexC2.index = some (some 5) ∧
    (5 : Nat) < 10 ∧
    ("k" : Key) ≠ INDEX ∧
    TimeoutShelf.contains cexC2 "k" = true := by
  refine ⟨by decide, by decide, by omega, by decide, by decide⟩

/-- C2 amended: the containment test returns false for the sentinel key;
for every other key it reports raw store containment with no expiry check and
no purge — in particular a present-but-expired key is still reported present
(`true`). -/
theorem claim_C2_contains_no_purge :
    (∀ s : TimeoutShelf.State, TimeoutShelf.contains s INDEX = false) ∧
    (∀ (s : TimeoutShelf.State) (k : Key) (v : Val) (t now : Nat), k ≠ INDEX →
      dictGet k s.store = some v → dictGet k s.index = some (some t) → t < now →
      TimeoutShelf.contains s k = true) := by
  constructor
  · intro s
    rw [TimeoutShelf.contains, if_pos rfl]
  · intro s k v t now hkI hget hidx hlt
    rw [TimeoutShelf.contains, if_neg hkI, hget]
    rfl

/-- C2 witness: the amended containment theorem applied to the concrete state
`cexC2` at the concrete expired key. -/
theorem claim_C2_witness : TimeoutShelf.contains cexC2 "k" = true :=
  claim_C2_contains_no_purge.2 cexC2 "k" 7 5 10 (by decide) (by decide) (by decide)
    (by decide)

/-- C3 counterexample: in `cexC3` the key `"k"` is present but expired at time
`10`; `set` (get-or-compute) with a factory returning `42` neither returns
`42` nor stores it — it purges the key and fails with `NotFound`, because
`__contains__` reports the expired key present and the subsequent read raises.
This refutes the claim that the factory is computed and stored on the
present-but-expired path. -/
theorem claim_C3_counterexample :
    dictGet "k" cexC3.store = some 7 ∧
    dictGet "k" cexC3.index = some (some 5) ∧
    (5 : Nat) < 10 ∧
    (TimeoutShelf.set cexC3 "k" (fun _ => 42) 10).1 = .error .notFound ∧
    dictGet "k" (TimeoutShelf.set cexC3 "k" (fun _ => 42) 10).2.store = none := by
  refine ⟨by decide, by decide, by omega, rfl, by decide⟩

/-- C3 amended: `getOrCompute` returns the stored value (with no state change)
when the key is present and unexpired (future instant or never-expires entry);
when the key is absent it computes the factory, performs exactly one store
write of that result stamped with the default timeout, and returns it; but
when the key is present and expired it purges the key from store and index and
fails with `NotFound` without storing or returning the factory result. -/
theorem claim_C3_get_or_compute (s : TimeoutShelf.State) (k : Key) (f : Unit → Val)
    (now : Nat) (hkI : k ≠ INDEX) :
    (∀ v t, dictGet k s.store = some v → dictGet k s.index = some (some t) →
      now ≤ t → TimeoutShelf.set s k f now = (.ok v, s)) ∧
    (∀ v, dictGet k s.store = some v → dictGet k s.index = some none →
      TimeoutShelf.set s k f now = (.ok v, s)) ∧
    (dictGet k s.store = none →
      TimeoutShelf.set s k f now =
        (.ok (f ()),
          { s with
            store := dictSet k (f ()) s.store,
            index := dictSet k
              (if s.timeout = 0 then none else some (now + s.timeout)) s.index })) ∧
    (∀ v t, dictGet k s.store = some v → dictGet k s.index = some (some t) →
      t < now →
      TimeoutShelf.set s k f now =
        (.error .notFound,
          { s with store := dictDel k s.store, index := dictDel k s.index })) := by
  refine ⟨?_, ?_, ?_, ?_⟩
  · intro v t hget hidx hle
    have hc : TimeoutShelf.contains s k = true := by
      rw [TimeoutShelf.contains, if_neg hkI, hget]
      rfl
    rw [TimeoutShelf.set, if_pos hc, ts_getitem_live s k v t now hkI hget hidx hle]
  · intro v hget hidx
    have hc : TimeoutShelf.contains s k = true := by
      rw [TimeoutShelf.contains, if_neg hkI, hget]
      rfl
    rw [TimeoutShelf.set, if_pos hc, ts_getitem_never s k v now hkI hget hidx]
  · intro hget
    have hc : ¬(TimeoutShelf.contains s k = true) := by
      rw [TimeoutShelf.contains, if_neg hkI, hget]
      simp
    rw [TimeoutShelf.set, if_neg hc]
    dsimp only
    rw [ts_setitem_not_index s k (f ()) now hkI]
  · intro v t hget hidx hlt
    have hc : TimeoutShelf.contains s k = true := by
      rw [TimeoutShelf.contains, if_neg hkI, hget]
      rfl
    have hmem : k ∈ dictKeys s.store := by
      rw [← dictGet_isSome_iff, hget]
      rfl
    rw [TimeoutShelf.set, if_pos hc, ts_getitem_expired s k t now hkI hmem hidx hlt]

/-- C3 witness: the amended get-or-compute theorem applied on the miss path of
a freshly opened shelf — the factory result is stored once and returned. -/
theorem claim_C3_witness :
    dictGet "a" (TimeoutShelf.init 300).store = none ∧
    (TimeoutShelf.set (TimeoutShelf.init 300) "a" (fun _ => 42) 0).1 = .ok 42 := by
  refine ⟨by decide, ?_⟩
  rw [(claim_C3_get_or_compute (TimeoutShelf.init 300) "a" (fun _ => 42) 0
    (by decide)).2.2.1 (by decide)]

/-- C4 counterexample: in `cexC4` the key `"k"` has the expiry instant `5`; at
current time `5` (instant equal to now, hence "less than or equal" per the
claim) `get` does NOT delete the key or fail — it returns the stored value and
leaves the state unchanged, because `_is_expired` treats `instant >= now` as
live.  This refutes the claimed `≤` comparison. -/
theorem claim_C4_counterexample :
    dictGet "k" cexC4.index = some (some 5) ∧
    dictGet "k" cexC4.store = some 7 ∧
    TimeoutShelf.getitem cexC4 "k" 5 = (.ok 7, cexC4) := by
  refine ⟨by decide, by decide, rfl⟩

/-- C4 amended: for a non-sentinel key present in the store, `get` first
deletes the key from both the store and the ExpiryIndex and then fails with
`NotFound` exactly when the recorded expiry instant is STRICTLY less than the
current time; a key whose instant is greater than or equal to the current time
(including the boundary instant), or whose entry is "never", is returned from
the store unchanged. -/
theorem claim_C4_expiry_strict (s : TimeoutShelf.State) (k : Key) (v : Val)
    (now : Nat) (hkI : k ≠ INDEX) (hget : dictGet k s.store = some v) :
    (∀ t, dictGet k s.index = some (some t) → t < now →
      TimeoutShelf.getitem s k now =
        (.error .notFound,
          { s with store := dictDel k s.store, index := dictDel k s.index })) ∧
    (∀ t, dictGet k s.index = some (some t) → now ≤ t →
      TimeoutShelf.getitem s k now = (.ok v, s)) ∧
    (dictGet k s.index = some none →
      TimeoutShelf.getitem s k now = (.ok v, s)) := by
  refine ⟨?_, ?_, ?_⟩
  · intro t hidx hlt
    have hmem : k ∈ dictKeys s.store := by
      rw [← dictGet_isSome_iff, hget]
      rfl
    exact ts_getitem_expired s k t now hkI hmem hidx hlt
  · intro t hidx hle
    exact ts_getitem_live s k v t now hkI hget hidx hle
  · intro hidx
    exact ts_getitem_never s k v now hkI hget hidx

/-- C4 witness: the amended theorem applied to `cexC4` one tick past the
boundary (`now = 6 > 5`), where the key is purged from store and index and the
read fails. -/
theorem claim_C4_witness :
    TimeoutShelf.getitem cexC4 "k" 6 =
      (.error .notFound,
        { cexC4 with store := dictDel "k" cexC4.store,
                     index := dictDel "k" cexC4.index }) :=
  (claim_C4_expiry_strict cexC4 "k" 7 6 (by decide) (by decide)).1 5 (by decide)
    (by decide)

/-- C5: for every finite sequence of set, get and delete operations none of
which uses the sentinel key as argument, run from a freshly opened shelf: the
sentinel key never appears in the sequence produced by `iterateKeys`, the
length reported (store element count minus one) counts exactly the
non-sentinel store keys (the sentinel record is present and is the excluded
element), and the sentinel never satisfies `contains`. -/
theorem claim_C5_sentinel_hidden (t : Nat) (ops : List TimeoutShelf.Op) (now : Nat)
    (hops : ∀ op ∈ ops, TimeoutShelf.Op.key op ≠ INDEX) :
    (∀ out s',
      TimeoutShelf.iterKeys (TimeoutShelf.run ops (TimeoutShelf.init t)) now =
        (.ok out, s') → INDEX ∉ out) ∧
    TimeoutShelf.contains (TimeoutShelf.run ops (TimeoutShelf.init t)) INDEX = false ∧
    INDEX ∈ dictKeys (TimeoutShelf.run ops (TimeoutShelf.init t)).store ∧
    TimeoutShelf.length (TimeoutShelf.run ops (TimeoutShelf.init t)) =
      (((dictKeys (TimeoutShelf.run ops (TimeoutShelf.init t)).store).erase
        INDEX).length : Int) := by
  have hs := ts_run_sentinel ops (TimeoutShelf.init t) (ts_init_sentinel t)
  refine ⟨?_, ?_, hs.2, ts_length_eq _ hs⟩
  · intro out s' h
    exact ts_iterGo_not_index now _ _ out s' h
  · rw [TimeoutShelf.contains, if_pos rfl]

/-- C5 witness: the sentinel-hiding theorem applied to a concrete two-operation
run (`set "a"`, then `delete "a"`) that avoids the sentinel key. -/
theorem claim_C5_witness :
    TimeoutShelf.contains
      (TimeoutShelf.run [.set "a" 1 0, .del "a"] (TimeoutShelf.init 300)) INDEX =
      false :=
  (claim_C5_sentinel_hidden 300 [.set "a" 1 0, .del "a"] 0 (by decide)).2.1

/-- C6: with `maxsize = 4`, inserting the five distinct keys a, b, c, d, e in
order into an empty LRU shelf (no intervening reads) leaves exactly b, c, d, e
present (a evicted); and in general, whenever `maxsize` is nonzero, a touch
(`_remove_add_key`) repeatedly deletes the least-recently-used key at the
queue head from the wrapped store until the queue length is at most
`maxsize` — the result queue is the surviving suffix and every dropped head is
gone from the store. -/
theorem claim_C6_lru_eviction :
    (dictKeys (LRUShelf.run
        [.set "a" 1, .set "b" 2, .set "c" 3, .set "d" 4, .set "e" 5]
        (LRUShelf.init 4)).store = ["b", "c", "d", "e"] ∧
      (LRUShelf.run
        [.set "a" 1, .set "b" 2, .set "c" 3, .set "d" 4, .set "e" 5]
        (LRUShelf.init 4)).queue = ["b", "c", "d", "e"]) ∧
    (∀ (s : LRUShelf.State) (k : Key),
      s.queue.Nodup → (dictKeys s.store).Nodup →
      (∀ a ∈ s.queue, a ∈ dictKeys s.store) →
      k ∈ dictKeys s.store → s.maxsize ≠ 0 →
      ∃ s', LRUShelf.remove_add_key s k = (none, s') ∧
        s'.queue.length ≤ s.maxsize ∧
        s'.queue = (s.queue.erase k ++ [k]).drop
          ((s.queue.erase k ++ [k]).length - s.maxsize) ∧
        (∀ j ∈ (s.queue.erase k ++ [k]).take
            ((s.queue.erase k ++ [k]).length - s.maxsize),
          j ∉ dictKeys s'.store)) := by
  constructor
  · exact ⟨by decide, by decide⟩
  · intro s k hqn hsn hqs hk hm
    obtain ⟨s', hrun, hm', hq', hqn', hsn', hmem', hlen⟩ :=
      lru_remove_add_key_spec s k hqn hsn hqs hk hm
    refine ⟨s', hrun, hm' ▸ hlen, hq', ?_⟩
    intro j hj hcontra
    exact ((hmem' j).1 hcontra).2 hj

/-- C6 witness: the eviction theorem applied to the concrete state `lruW6`
(`maxsize = 1`, keys a and b queued in that order) touched at `b`. -/
theorem claim_C6_witness :
    ∃ s', LRUShelf.remove_add_key lruW6 "b" = (none, s') ∧
      s'.queue.length ≤ lruW6.maxsize ∧
      s'.queue = (lruW6.queue.erase "b" ++ ["b"]).drop
        ((lruW6.queue.erase "b" ++ ["b"]).length - lruW6.maxsize) ∧
      (∀ j ∈ (lruW6.queue.erase "b" ++ ["b"]).take
          ((lruW6.queue.erase "b" ++ ["b"]).length - lruW6.maxsize),
        j ∉ dictKeys s'.store) :=
  claim_C6_lru_eviction.2 lruW6 "b" (by decide) (by decide) (by decide) (by decide)
    (by decide)

/-- C7: after inserting a, b, c into an empty LRU shelf the queue reads
[a, b, c]; a successful get of b reorders it to [a, c, b] and a following get
of a yields [c, b, a]; in general, on any state satisfying the LRU invariant a
successful get moves its key to the most-recent tail position (queue becomes
`erase k ++ [k]`, store untouched), while a failed get (key absent) returns
the state entirely unchanged — no queue mutation. -/
theorem claim_C7_recency_reorder :
    ((LRUShelf.run [.set "a" 1, .set "b" 2, .set "c" 3]
        (LRUShelf.init 4)).queue = ["a", "b", "c"] ∧
      (LRUShelf.run [.set "a" 1, .set "b" 2, .set "c" 3, .get "b"]
        (LRUShelf.init 4)).queue = ["a", "c", "b"] ∧
      (LRUShelf.run [.set "a" 1, .set "b" 2, .set "c" 3, .get "b", .get "a"]
        (LRUShelf.init 4)).queue = ["c", "b", "a"]) ∧
    (∀ (s : LRUShelf.State) (k : Key) (v : Val), LRUShelf.Inv s →
      (dictGet k s.store = some v →
        LRUShelf.getitem s k = (.ok v, { s with queue := s.queue.erase k ++ [k] })) ∧
      (dictGet k s.store = none →
        LRUShelf.getitem s k = (.error .notFound, s))) := by
  constructor
  · exact ⟨by decide, by decide, by decide⟩
  · intro s k v h
    exact ⟨fun hget => lru_getitem_some s k v h hget,
      fun hget => lru_getitem_none s k hget⟩

/-- C7 witness: the recency theorem applied to the concrete state `lruW7` at
the live key a, which moves a to the queue tail. -/
theorem claim_C7_witness :
    LRUShelf.Inv lruW7 ∧
    LRUShelf.getitem lruW7 "a" =
      (.ok 1, { lruW7 with queue := lruW7.queue.erase "a" ++ ["a"] }) :=
  ⟨by decide, (claim_C7_recency_reorder.2 lruW7 "a" 1 (by decide)).1 (by decide)⟩

/-- C8: the constructor validation of the timeout layer
(`_TimeoutMixin.__init__`) rejects only a missing (`None`) timeout; contrary
to the claim (and to the constructor's own error message "timeout must be a
non-negative integer"), a negative timeout value such as `-1` is accepted
without error. -/
theorem claim_C8_negative_timeout_accepted :
    TimeoutShelf.init_timeout_check (some (-1)) = .ok (-1) ∧
    TimeoutShelf.init_timeout_check none = .error .invalidConfig :=
  ⟨rfl, rfl⟩

/-- C9: deleting a non-sentinel key that is absent from the wrapped store of a
composed LRU+TTL shelf fails with `NotFound` and is atomic on error: the
returned state is exactly the input state, so store, ExpiryIndex and
RecencyQueue are all unchanged. -/
theorem claim_C9_delete_absent_atomic (s : LRUTimeoutShelf.State) (k : Key)
    (hkI : k ≠ INDEX) (habs : dictGet k s.store = none) :
    LRUTimeoutShelf.delitem s k = (some .notFound, s) := by
  refine lt_delitem_not_mem s k hkI ?_
  intro hmem
  have := (dictGet_isSome_iff k s.store).2 hmem
  rw [habs] at this
  exact absurd this (by simp)

/-- C9 witness: the atomic-failure theorem applied to a freshly opened
composed shelf and the absent key a. -/
theorem claim_C9_witness :
    LRUTimeoutShelf.delitem (LRUTimeoutShelf.init 4 300) "a" =
      (some .notFound, LRUTimeoutShelf.init 4 300) :=
  claim_C9_delete_absent_atomic (LRUTimeoutShelf.init 4 300) "a" (by decide)
    (by decide)

/-- C10: calling `settimeout` with the sentinel key fails with the
reserved-key error for every value, ttl and clock, and leaves the state (store
and ExpiryIndex alike) exactly unchanged, because the explicit-ttl path routes
through the same sentinel check as a plain set before touching the index. -/
theorem claim_C10_settimeout_sentinel (s : LRUTimeoutShelf.State) (v : Val)
    (ttl now : Nat) :
    LRUTimeoutShelf.settimeout s INDEX v ttl now = (some .protectedKey, s) := by
  rw [LRUTimeoutShelf.settimeout, LRUTimeoutShelf.setitem,
    LRUTimeoutShelf.timeout_setitem, if_pos rfl]
